import Mathlib

/-!
Verification of the speed-test measurement pipeline in `src/src/App.js`.

The JavaScript source is shallowly embedded: numbers that stay finite are
modelled by `ℚ` (and `ℤ` after `Math.round`), a JS number that may be
non-finite (`Infinity` after a division by zero) is modelled by `Option ℚ`
with `none` standing for the non-finite value, `localStorage` is modelled by
an association list of keys and stored blobs, and the asynchronous `runTest`
procedure is modelled as a function from a stub of its network environment
to the final state it produces (progress updates, phase labels, the result
record and the storage contents).
-/

/-- JS `Math.round`: round half toward positive infinity. -/
def jsRound (q : ℚ) : ℤ := ⌊q + 1 / 2⌋

/-- JS `x.toFixed(1)` followed by `parseFloat`, on a finite value:
round to one fractional digit (ties rounded up, as all values here are
non-negative). -/
def toFixed1 (q : ℚ) : ℚ := (jsRound (q * 10) : ℚ) / 10

/-- A JS number that may be non-finite: `none` models `Infinity`/`NaN`. -/
abbrev JsNum := Option ℚ

/-- `((bytes * 8) / timeSec / 1000000).toFixed(1)` then `parseFloat`, as in
lines 173 and 188 of `App.js`; a zero elapsed time gives JS `Infinity`,
modelled by `none`. -/
def throughputMbps (bytes : ℕ) (timeSec : ℚ) : JsNum :=
  if timeSec = 0 then none
  else some (toFixed1 ((bytes : ℚ) * 8 / timeSec / 1000000))

/-- The dynamically-typed `timestamp` field of a result object: the in-memory
record carries the locale string from `new Date().toLocaleString()`, while the
persisted record carries the numeric epoch from `Date.now()`. -/
inductive TsVal
  | str (s : String)
  | num (n : ℕ)
deriving DecidableEq, Repr

/-- A result object as built by `runTest` (`finalResults` / `fallback`):
`download`/`upload` are JS numbers that may be `Infinity`, `ip` is absent
(`none`) on the fallback record. -/
structure SpeedRecord where
  ping : ℤ
  download : JsNum
  upload : JsNum
  jitter : ℤ
  server : String
  ip : Option String
  timestamp : TsVal
deriving DecidableEq, Repr

/-- A value stored in `localStorage`: either the serialization of a record
(`JSON.parse` recovers it) or a corrupt string (`JSON.parse` throws). -/
inductive Blob
  | valid (r : SpeedRecord)
  | corrupt
deriving DecidableEq, Repr

/-- `localStorage` contents, an association list with unique keys. -/
abbrev Store := List (String × Blob)

/-- `localStorage.getItem`: `none` models a missing key / `null`. -/
def storeGet (st : Store) (key : String) : Option Blob :=
  (st.find? (fun kv => kv.1 = key)).map Prod.snd

/-- `localStorage.setItem`: replaces any existing binding of the key. -/
def storeSet (st : Store) (key : String) (v : Blob) : Store :=
  (st.filter (fun kv => kv.1 ≠ key)) ++ [(key, v)]

/-- JS `k.startsWith(p)` on strings. -/
def strStartsWith (p k : String) : Bool := p.data.isPrefixOf k.data

/-- `storage.list`: the keys of the store that start with the given string
(`Object.keys(localStorage).filter(k => k.startsWith(prefix))`). -/
def storeList (st : Store) (p : String) : List String :=
  (st.map Prod.fst).filter (fun k => strStartsWith p k)

/-- `JSON.parse` on a stored value: throws (`none`) on corrupt data. -/
def jsonParse : Blob → Option SpeedRecord
  | .valid r => some r
  | .corrupt => none

/-- The body of `loadHistory` after `storage.list`, for a given key list:
sort ascending, reverse, take the first `n`, `storage.get` each key
(a missing key yields `null`, kept for the later `filter(Boolean)`),
`JSON.parse` each value (a throw makes the whole `Promise.all` reject,
modelled by the outer `Option` being `none`), then `filter(Boolean)`. -/
def loadHistoryKeys (n : ℕ) (keys : List String) (st : Store) :
    Option (List SpeedRecord) :=
  let sortedKeys := (List.insertionSort (· ≤ ·) keys).reverse
  ((sortedKeys.take n).mapM (fun key =>
      match storeGet st key with
      | none => some none
      | some b => (jsonParse b).map some)).map (List.filterMap id)

/-- `loadHistory` with the slice bound as a parameter (the source fixes it
at `5` in `sortedKeys.slice(0, 5)`). -/
def loadHistoryN (n : ℕ) (st : Store) : Option (List SpeedRecord) :=
  loadHistoryKeys n (storeList st "speedtest:") st

/-- `loadHistory` exactly as in the source: the five most recent entries. -/
def loadHistory (st : Store) : Option (List SpeedRecord) := loadHistoryN 5 st

/-- `saveResult`: stores `JSON.stringify({ ...result, timestamp })` under
`speedtest:${timestamp}` where `timestamp = Date.now()`; the spread means the
numeric `timestamp` overwrites the record's locale-string `timestamp`. -/
def saveResult (r : SpeedRecord) (nowMs : ℕ) (st : Store) : Store :=
  storeSet st ("speedtest:" ++ toString nowMs)
    (Blob.valid { r with timestamp := TsVal.num nowMs })

/-- The three insight profiles (`data[id]` keys in `generateInsights`). -/
inductive UseCase
  | streaming
  | gaming
  | work
deriving DecidableEq, Repr

/-- One entry of the `data` object in `generateInsights` (the icon is a view
concern and is not modelled). -/
structure Assessment where
  title : String
  status : String
  desc : String
deriving DecidableEq, Repr

/-- JS `x > c` where `x` may be `Infinity` (`Infinity > c` is true). -/
def jsGt (x : JsNum) (c : ℚ) : Bool :=
  match x with
  | some q => decide (c < q)
  | none => true

/-- JS `Math.floor(x / 25)` interpolated into a template string;
`Math.floor(Infinity)` is `Infinity`. -/
def jsFloorDiv25 : JsNum → String
  | some q => toString ⌊q / 25⌋
  | none => "Infinity"

/-- The `data` table of `generateInsights`, a pure function of the result
record and the selected profile. -/
def insightFor (r : SpeedRecord) : UseCase → Assessment
  | .streaming =>
      { title := "Streaming 4K Content"
        status := if jsGt r.download 25 then "Seamless" else "Limited"
        desc := if jsGt r.download 25 then
            "Perfect for " ++ jsFloorDiv25 r.download ++ " concurrent UHD streams."
          else "Buffer risks on high quality." }
  | .gaming =>
      { title := "Competitive Gaming"
        status := if r.ping < 30 then "Elite" else "Fair"
        desc := if r.ping < 30 then "Tournament-grade latency. Minimal input lag."
          else "Slight latency may be felt in shooters." }
  | .work =>
      { title := "Remote Collaboration"
        status := if jsGt r.upload 10 then "Professional" else "Basic"
        desc := if jsGt r.upload 10 then
            "High-speed sync for cloud backups and 4K calls."
          else "May struggle with large file uploads." }

/-- `generateInsights` as invoked from the UI: it destructures the `results`
state, which throws a `TypeError` (modelled by `Except.error`) when `results`
is still `null`. -/
def generateInsights (results : Option SpeedRecord) (id : UseCase) :
    Except Unit Assessment :=
  match results with
  | none => Except.error ()
  | some r => Except.ok (insightFor r id)

/-- The component state touched at the top of `runTest`
(lines 126–130 of `App.js`). -/
structure AppState where
  testing : Bool
  results : Option SpeedRecord
  insights : Option Assessment
  useCase : Option UseCase
  progress : ℚ
  history : List SpeedRecord
deriving DecidableEq, Repr

/-- The synchronous entry of `runTest`: it performs no busy check and
unconditionally resets the session state. -/
def runTestEntry (s : AppState) : AppState :=
  { s with
    testing := true
    results := none
    insights := none
    useCase := none
    progress := 0 }

/-- The JSON body returned by the `ipapi.co` lookup: each field may be
absent. -/
structure EnvData where
  org : Option String
  asn : Option String
  ip : Option String

/-- JS `x || d` on a string field that may be absent: an absent field and an
empty string are both falsy. -/
def jsStrOr (x : Option String) (d : String) : String :=
  match x with
  | some s => if s = "" then d else s
  | none => d

/-- Phase 0 of `runTest`: `netData.org || netData.asn || 'Universal Host'`
and `netData.ip || ''` on success, the `Local Network` fallback when the
lookup throws. -/
def networkInfoOf (env : Option EnvData) : String × String :=
  match env with
  | some d => (jsStrOr d.org (jsStrOr d.asn "Universal Host"), jsStrOr d.ip "")
  | none => ("Local Network", "")

/-- A stub of everything `runTest` observes from the outside world: elapsed
times (in monotonic-clock milliseconds) or a `NetworkError` for each probe,
the download body chunks actually received, and the wall clock readings taken
at completion. -/
structure RunStub where
  env : Option EnvData
  pingAt : ℕ → Except Unit ℚ
  downloadChunks : List ℕ
  downloadEnd : Except Unit ℚ
  uploadEnd : Except Unit ℚ
  wallNow : ℕ
  localeStr : String

/-- The Phase-1 loop `for (let i = 0; i < 5; i++)`: returns the collected
samples, the progress values passed to `setProgress` (each probe adds 6), and
whether all probes succeeded (`false` when a probe threw mid-loop). -/
def pingPhaseAux (f : ℕ → Except Unit ℚ) : ℕ → ℕ → ℚ → List ℚ × List ℚ × Bool
  | _, 0, _ => ([], [], true)
  | i, fuel + 1, prog =>
    match f i with
    | .error _ => ([], [], false)
    | .ok t =>
      let rest := pingPhaseAux f (i + 1) fuel (prog + 6)
      (t :: rest.1, (prog + 6) :: rest.2.1, rest.2.2)

/-- Phase 1 of `runTest`: exactly 5 sequential probes starting from
progress 0. -/
def pingPhase (f : ℕ → Except Unit ℚ) : List ℚ × List ℚ × Bool :=
  pingPhaseAux f 0 5 0

/-- The running values of `received` after each chunk of the download body
(`received += value.length` in the reader loop). -/
def runningTotals : List ℕ → ℕ → List ℕ
  | [], _ => []
  | c :: cs, acc => (acc + c) :: runningTotals cs (acc + c)

/-- The value passed to `setProgress` for a given `received` byte count:
`30 + (received / downloadSize) * 40`, with no clamping. -/
def dlProgressVal (received : ℕ) : ℚ := 30 + ((received : ℚ) / 25000000) * 40

/-- All Phase-2 progress updates, one per chunk. -/
def dlProgressList (chunks : List ℕ) : List ℚ :=
  (runningTotals chunks 0).map dlProgressVal

/-- `[...pings].sort((a, b) => a - b)`: ascending numeric sort. -/
def sortedAsc (l : List ℚ) : List ℚ := List.insertionSort (· ≤ ·) l

/-- Everything observable `runTest` produced: the sequence of values passed
to `setProgress` (including the initial reset to 0), the sequence of values
passed to `setCurrentTest`, the final `results` state, and the storage
contents after `saveResult`. -/
structure RunOutcome where
  progressTrace : List ℚ
  phaseTrace : List String
  results : Option SpeedRecord
  store : Store
deriving Repr

/-- The `fallback` object of the catch block (no `ip` field). -/
def fallbackRecord (localeStr : String) : SpeedRecord :=
  { ping := 24
    download := some 82.4
    upload := some 31.2
    jitter := 4
    server := "Regional Cache"
    ip := none
    timestamp := TsVal.str localeStr }

/-- The whole `runTest` procedure on a stubbed environment, starting from
storage contents `st0`. Any `NetworkError` in Phases 1–3 lands in the catch
block, which builds the fallback record and saves it, without touching
progress or the phase label. -/
def runTest (stub : RunStub) (st0 : Store) : RunOutcome :=
  let netInfo := networkInfoOf stub.env
  let pp := pingPhase stub.pingAt
  let preTrace := 0 :: pp.2.1
  if pp.2.2 = false then
    let fb := fallbackRecord stub.localeStr
    { progressTrace := preTrace
      phaseTrace := ["ping"]
      results := some fb
      store := saveResult fb stub.wallNow st0 }
  else
    let pings := pp.1
    let ping := jsRound (pings.sum / (pings.length : ℚ))
    let sp := sortedAsc pings
    let jitter := jsRound (sp.getLastD 0 - sp.headD 0)
    let dlTrace := dlProgressList stub.downloadChunks
    match stub.downloadEnd with
    | .error _ =>
      let fb := fallbackRecord stub.localeStr
      { progressTrace := preTrace ++ dlTrace
        phaseTrace := ["ping", "download"]
        results := some fb
        store := saveResult fb stub.wallNow st0 }
    | .ok dlMs =>
      let downloadSpeed := throughputMbps 25000000 (dlMs / 1000)
      match stub.uploadEnd with
      | .error _ =>
        let fb := fallbackRecord stub.localeStr
        { progressTrace := preTrace ++ dlTrace
          phaseTrace := ["ping", "download", "upload"]
          results := some fb
          store := saveResult fb stub.wallNow st0 }
      | .ok upMs =>
        let uploadSpeed := throughputMbps 5000000 (upMs / 1000)
        let finalResults : SpeedRecord :=
          { ping := ping
            download := downloadSpeed
            upload := uploadSpeed
            jitter := jitter
            server := netInfo.1
            ip := some netInfo.2
            timestamp := TsVal.str stub.localeStr }
        { progressTrace := preTrace ++ dlTrace ++ [100]
          phaseTrace := ["ping", "download", "upload", "finished"]
          results := some finalResults
          store := saveResult finalResults stub.wallNow st0 }

/-! ### Spec-side sample statistics

The spec describes `jitterMs` as `round(max(samples) − min(samples))`; the
source computes it from the sorted sample array. The following definitions
state the spec's wording, to be compared with the code's computation. -/

/-- The minimum of a latency sample set (spec wording `min(samples)`). -/
def listMin : List ℚ → ℚ
  | [] => 0
  | [a] => a
  | a :: b :: t => min a (listMin (b :: t))

/-- The maximum of a latency sample set (spec wording `max(samples)`). -/
def listMax : List ℚ → ℚ
  | [] => 0
  | [a] => a
  | a :: b :: t => max a (listMax (b :: t))

theorem listMin_le : ∀ {l : List ℚ} {x : ℚ}, x ∈ l → listMin l ≤ x
  | [], x, hx => by simp at hx
  | [a], x, hx => by
    rw [List.mem_singleton] at hx
    simp [listMin, hx]
  | a :: b :: t, x, hx => by
    rcases List.mem_cons.mp hx with rfl | hx2
    · exact min_le_left _ _
    · exact le_trans (min_le_right _ _) (listMin_le hx2)

theorem le_listMax : ∀ {l : List ℚ} {x : ℚ}, x ∈ l → x ≤ listMax l
  | [], x, hx => by simp at hx
  | [a], x, hx => by
    rw [List.mem_singleton] at hx
    simp [listMax, hx]
  | a :: b :: t, x, hx => by
    rcases List.mem_cons.mp hx with rfl | hx2
    · exact le_max_left _ _
    · exact le_trans (le_listMax hx2) (le_max_right _ _)

theorem listMin_mem : ∀ {l : List ℚ}, l ≠ [] → listMin l ∈ l
  | [], h => absurd rfl h
  | [a], _ => by simp [listMin]
  | a :: b :: t, _ => by
    have hmin : listMin (a :: b :: t) = min a (listMin (b :: t)) := rfl
    rcases min_choice a (listMin (b :: t)) with h | h <;> rw [hmin, h]
    · exact List.mem_cons_self _ _
    · exact List.mem_cons_of_mem _ (listMin_mem (by simp))

theorem listMax_mem : ∀ {l : List ℚ}, l ≠ [] → listMax l ∈ l
  | [], h => absurd rfl h
  | [a], _ => by simp [listMax]
  | a :: b :: t, _ => by
    have hmax : listMax (a :: b :: t) = max a (listMax (b :: t)) := rfl
    rcases max_choice a (listMax (b :: t)) with h | h <;> rw [hmax, h]
    · exact List.mem_cons_self _ _
    · exact List.mem_cons_of_mem _ (listMax_mem (by simp))

theorem headD_le_of_sorted {l : List ℚ} (hs : List.Sorted (· ≤ ·) l) {x : ℚ}
    (hx : x ∈ l) : l.headD 0 ≤ x := by
  cases l with
  | nil => simp at hx
  | cons a t =>
    rw [List.headD_cons]
    rcases List.mem_cons.mp hx with rfl | hx2
    · exact le_refl x
    · exact List.rel_of_sorted_cons hs x hx2

theorem le_getLastD_of_sorted : ∀ {l : List ℚ}, List.Sorted (· ≤ ·) l →
    ∀ {x : ℚ}, x ∈ l → x ≤ l.getLastD 0
  | [], _, x, hx => by simp at hx
  | [a], _, x, hx => by
    rw [List.mem_singleton] at hx
    simp [hx, List.getLastD]
  | a :: b :: t, hs, x, hx => by
    have hbt : List.Sorted (· ≤ ·) (b :: t) := hs.of_cons
    rw [List.getLastD_cons, List.getLastD_cons]
    rcases List.mem_cons.mp hx with rfl | hx2
    · have hab : x ≤ b := List.rel_of_sorted_cons hs b (List.mem_cons_self b t)
      have hb := le_getLastD_of_sorted hbt (List.mem_cons_self b t)
      rw [List.getLastD_cons] at hb
      exact le_trans hab hb
    · have := le_getLastD_of_sorted hbt hx2
      rwa [List.getLastD_cons] at this

theorem sortedAsc_ne_nil {l : List ℚ} (h : l ≠ []) : sortedAsc l ≠ [] := by
  intro hnil
  have hlen := (List.perm_insertionSort (α := ℚ) (· ≤ ·) l).length_eq
  rw [sortedAsc] at hnil
  rw [hnil] at hlen
  exact h (List.length_eq_zero.mp hlen.symm)

theorem sortedAsc_headD {l : List ℚ} (h : l ≠ []) :
    (sortedAsc l).headD 0 = listMin l := by
  have hs : List.Sorted (· ≤ ·) (sortedAsc l) := List.sorted_insertionSort _ l
  have hperm := List.perm_insertionSort (α := ℚ) (· ≤ ·) l
  apply le_antisymm
  · exact headD_le_of_sorted hs (hperm.mem_iff.mpr (listMin_mem h))
  · apply listMin_le
    have hmem : (sortedAsc l).headD 0 ∈ sortedAsc l := by
      cases hsl : sortedAsc l with
      | nil => exact absurd hsl (sortedAsc_ne_nil h)
      | cons a t => simp
    exact hperm.mem_iff.mp hmem

theorem sortedAsc_getLastD {l : List ℚ} (h : l ≠ []) :
    (sortedAsc l).getLastD 0 = listMax l := by
  have hs : List.Sorted (· ≤ ·) (sortedAsc l) := List.sorted_insertionSort _ l
  have hperm := List.perm_insertionSort (α := ℚ) (· ≤ ·) l
  apply le_antisymm
  · apply le_listMax
    have hmem : (sortedAsc l).getLastD 0 ∈ sortedAsc l := by
      have hne := sortedAsc_ne_nil h
      rw [List.getLastD_eq_getLast?, List.getLast?_eq_getLast _ hne, Option.getD_some]
      exact List.getLast_mem hne
    exact hperm.mem_iff.mp hmem
  · exact le_getLastD_of_sorted hs (hperm.mem_iff.mpr (listMax_mem h))

/-! ### Execution lemmas for `runTest` -/

theorem pingPhase_ok {f : ℕ → Except Unit ℚ} (h : (pingPhase f).2.2 = true) :
    ∃ t0 t1 t2 t3 t4 : ℚ, f 0 = Except.ok t0 ∧ f 1 = Except.ok t1 ∧
      f 2 = Except.ok t2 ∧ f 3 = Except.ok t3 ∧ f 4 = Except.ok t4 ∧
      (pingPhase f).1 = [t0, t1, t2, t3, t4] ∧
      (pingPhase f).2.1 = [6, 12, 18, 24, 30] := by
  rcases h0 : f 0 with e | t0
  · rw [pingPhase] at h
    simp [pingPhaseAux, h0] at h
  rcases h1 : f 1 with e | t1
  · rw [pingPhase] at h
    simp [pingPhaseAux, h0, h1] at h
  rcases h2 : f 2 with e | t2
  · rw [pingPhase] at h
    simp [pingPhaseAux, h0, h1, h2] at h
  rcases h3 : f 3 with e | t3
  · rw [pingPhase] at h
    simp [pingPhaseAux, h0, h1, h2, h3] at h
  rcases h4 : f 4 with e | t4
  · rw [pingPhase] at h
    simp [pingPhaseAux, h0, h1, h2, h3, h4] at h
  refine ⟨t0, t1, t2, t3, t4, rfl, rfl, rfl, rfl, rfl, ?_, ?_⟩ <;>
    norm_num [pingPhase, pingPhaseAux, h0, h1, h2, h3, h4]

/-- The record `finalResults` assembled on a fully successful run, with `d`
and `u` the elapsed download and upload milliseconds. -/
def okRecord (stub : RunStub) (d u : ℚ) : SpeedRecord :=
  { ping := jsRound ((pingPhase stub.pingAt).1.sum /
      ((pingPhase stub.pingAt).1.length : ℚ))
    download := throughputMbps 25000000 (d / 1000)
    upload := throughputMbps 5000000 (u / 1000)
    jitter := jsRound ((sortedAsc (pingPhase stub.pingAt).1).getLastD 0 -
      (sortedAsc (pingPhase stub.pingAt).1).headD 0)
    server := (networkInfoOf stub.env).1
    ip := some (networkInfoOf stub.env).2
    timestamp := TsVal.str stub.localeStr }

theorem runTest_ok (stub : RunStub) (st0 : Store) {d u : ℚ}
    (hp : (pingPhase stub.pingAt).2.2 = true) (hd : stub.downloadEnd = Except.ok d)
    (hu : stub.uploadEnd = Except.ok u) :
    runTest stub st0 =
      { progressTrace :=
          (0 :: (pingPhase stub.pingAt).2.1) ++
            (dlProgressList stub.downloadChunks ++ [100])
        phaseTrace := ["ping", "download", "upload", "finished"]
        results := some (okRecord stub d u)
        store := saveResult (okRecord stub d u) stub.wallNow st0 } := by
  rw [runTest]
  simp only [hp, hd, hu, Bool.true_eq_false, if_false, okRecord]
  simp [List.cons_append, List.append_assoc]

theorem runTest_err (stub : RunStub) (st0 : Store)
    (h : (pingPhase stub.pingAt).2.2 = false ∨ stub.downloadEnd = Except.error () ∨
      stub.uploadEnd = Except.error ()) :
    (runTest stub st0).results = some (fallbackRecord stub.localeStr) ∧
    (runTest stub st0).store =
      saveResult (fallbackRecord stub.localeStr) stub.wallNow st0 ∧
    "finished" ∉ (runTest stub st0).phaseTrace := by
  by_cases hp : (pingPhase stub.pingAt).2.2 = false
  · rw [runTest]
    simp [hp]
  · have hp' : (pingPhase stub.pingAt).2.2 = true := by
      cases hb : (pingPhase stub.pingAt).2.2
      · exact absurd hb hp
      · rfl
    rcases h with h | h | h
    · exact absurd h hp
    · rw [runTest]
      simp [hp', h]
    · rcases hde : stub.downloadEnd with e | dl
      · rw [runTest]
        simp [hp', hde]
      · rw [runTest]
        simp [hp', hde, h]

/-! ### Storage lemmas -/

theorem strStartsWith_append (p t : String) : strStartsWith p (p ++ t) = true := by
  rw [strStartsWith, String.data_append]
  exact List.isPrefixOf_iff_prefix.mpr (List.prefix_append _ _)

theorem mapM_option_singleton {α β : Type} (f : α → Option β) (a : α) :
    List.mapM f [a] = (f a).map (fun b => [b]) := by
  rw [List.mapM_cons, List.mapM_nil]
  cases f a <;> rfl

theorem loadHistoryN_one_saveResult (r : SpeedRecord) (nowMs : ℕ) :
    loadHistoryN 1 (saveResult r nowMs []) =
      some [{ r with timestamp := TsVal.num nowMs }] := by
  have hget : storeGet [("speedtest:" ++ toString nowMs,
      Blob.valid { r with timestamp := TsVal.num nowMs })]
      ("speedtest:" ++ toString nowMs) =
      some (Blob.valid { r with timestamp := TsVal.num nowMs }) := by
    rw [storeGet, List.find?_cons_of_pos _ (by simp)]
    rfl
  have hstep : loadHistoryN 1 (saveResult r nowMs []) =
      (List.mapM (fun key =>
          match storeGet [("speedtest:" ++ toString nowMs,
            Blob.valid { r with timestamp := TsVal.num nowMs })] key with
          | none => some none
          | some b => (jsonParse b).map some)
        ["speedtest:" ++ toString nowMs]).map (List.filterMap id) := by
    rw [loadHistoryN]
    have hlist : storeList [("speedtest:" ++ toString nowMs,
        Blob.valid { r with timestamp := TsVal.num nowMs })] "speedtest:" =
        ["speedtest:" ++ toString nowMs] := by
      simp [storeList, strStartsWith_append]
    rw [show saveResult r nowMs [] = [("speedtest:" ++ toString nowMs,
      Blob.valid { r with timestamp := TsVal.num nowMs })] from rfl, hlist]
    rfl
  rw [hstep, mapM_option_singleton, hget]
  rfl

theorem mapM_option_of_isSome {α β : Type} (f : α → Option β) :
    ∀ l : List α, (∀ a ∈ l, (f a).isSome = true) →
      ∃ bs : List β, l.mapM f = some bs ∧ bs.length = l.length
  | [], _ => ⟨[], rfl, rfl⟩
  | a :: t, h => by
    rcases Option.isSome_iff_exists.mp (h a (List.mem_cons_self a t)) with ⟨b, hb⟩
    rcases mapM_option_of_isSome f t (fun x hx => h x (List.mem_cons_of_mem a hx))
      with ⟨bs, hbs, hlen⟩
    refine ⟨b :: bs, ?_, by simp [hlen]⟩
    rw [List.mapM_cons, hb, hbs]
    rfl

/-! ### Progress-trace lemmas -/

theorem chain'_pingPhaseAux (f : ℕ → Except Unit ℚ) :
    ∀ (fuel i : ℕ) (prog : ℚ),
      List.Chain' (· ≤ ·) (prog :: (pingPhaseAux f i fuel prog).2.1)
  | 0, i, prog => by simp [pingPhaseAux]
  | fuel + 1, i, prog => by
    rw [pingPhaseAux]
    cases hfi : f i with
    | error e => simp
    | ok t =>
      refine List.chain'_cons.mpr ⟨by linarith, ?_⟩
      exact chain'_pingPhaseAux f fuel (i + 1) (prog + 6)

theorem chain'_runningTotals : ∀ (chunks : List ℕ) (acc : ℕ),
    List.Chain' (· ≤ ·) (acc :: runningTotals chunks acc)
  | [], acc => by simp [runningTotals]
  | c :: cs, acc => by
    rw [runningTotals]
    exact List.chain'_cons.mpr ⟨Nat.le_add_right _ _, chain'_runningTotals cs (acc + c)⟩

theorem mem_runningTotals : ∀ {chunks : List ℕ} {acc x : ℕ},
    x ∈ runningTotals chunks acc → acc ≤ x ∧ x ≤ acc + chunks.sum
  | [], acc, x, hx => by simp [runningTotals] at hx
  | c :: cs, acc, x, hx => by
    rw [runningTotals] at hx
    rw [List.sum_cons]
    rcases List.mem_cons.mp hx with rfl | hx2
    · exact ⟨Nat.le_add_right _ _, by omega⟩
    · have := mem_runningTotals hx2
      omega

theorem dlProgressVal_mono {r s : ℕ} (h : r ≤ s) :
    dlProgressVal r ≤ dlProgressVal s := by
  rw [dlProgressVal, dlProgressVal]
  have hc : (r : ℚ) ≤ (s : ℚ) := Nat.cast_le.mpr h
  have hdiv : (r : ℚ) / 25000000 ≤ (s : ℚ) / 25000000 := by
    apply div_le_div_of_nonneg_right hc
    norm_num
  nlinarith

theorem le_dlProgressVal (r : ℕ) : 30 ≤ dlProgressVal r := by
  rw [dlProgressVal]
  have h0 : (0 : ℚ) ≤ ((r : ℚ) / 25000000) * 40 := by positivity
  linarith

theorem dlProgressVal_le (r : ℕ) (h : r ≤ 25000000) : dlProgressVal r ≤ 70 := by
  rw [dlProgressVal]
  have h1 : (r : ℚ) / 25000000 ≤ 1 := by
    rw [div_le_one (by norm_num)]
    exact_mod_cast h
  nlinarith

theorem chain'_dlProgressList (chunks : List ℕ) :
    List.Chain' (· ≤ ·) (dlProgressList chunks) := by
  rw [dlProgressList, List.chain'_map]
  have htail := (chain'_runningTotals chunks 0).tail
  exact List.Chain'.imp (fun a b hab => dlProgressVal_mono hab) htail

theorem mem_dlProgressList {chunks : List ℕ} {x : ℚ}
    (hx : x ∈ dlProgressList chunks) :
    ∃ rcv : ℕ, x = dlProgressVal rcv ∧ rcv ≤ chunks.sum := by
  rw [dlProgressList] at hx
  rcases List.mem_map.mp hx with ⟨rcv, hr, rfl⟩
  exact ⟨rcv, rfl, by simpa using (mem_runningTotals hr).2⟩

theorem mem_of_getLast?_eq {l : List ℚ} {a : ℚ} (h : l.getLast? = some a) :
    a ∈ l := by
  cases l with
  | nil => simp at h
  | cons b t =>
    have hne : (b :: t) ≠ ([] : List ℚ) := by simp
    rw [List.getLast?_eq_getLast _ hne] at h
    have hmem := List.getLast_mem hne
    rwa [Option.some_inj.mp h] at hmem

theorem chain'_trace_append {chunks : List ℕ} (hsum : chunks.sum ≤ 25000000)
    (tl : List ℚ) (htl : tl = [100] ∨ tl = []) :
    List.Chain' (· ≤ ·)
      (([0, 6, 12, 18, 24, 30] : List ℚ) ++ (dlProgressList chunks ++ tl)) := by
  have hmem : ∀ x ∈ dlProgressList chunks, 30 ≤ x ∧ x ≤ 70 := by
    intro x hx
    obtain ⟨rcv, rfl, hrcv⟩ := mem_dlProgressList hx
    exact ⟨le_dlProgressVal rcv, dlProgressVal_le rcv (le_trans hrcv hsum)⟩
  have htl_chain : List.Chain' (· ≤ ·) tl := by
    rcases htl with rfl | rfl
    · exact List.chain'_singleton _
    · exact List.chain'_nil
  rw [List.chain'_append]
  refine ⟨by norm_num [List.chain'_cons], ?_, ?_⟩
  · rw [List.chain'_append]
    refine ⟨chain'_dlProgressList chunks, htl_chain, ?_⟩
    intro x hx y hy
    have hxmem : x ∈ dlProgressList chunks := by
      rw [Option.mem_def] at hx
      exact mem_of_getLast?_eq hx
    rcases htl with rfl | rfl
    · simp at hy
      rw [← hy]
      exact le_trans (hmem x hxmem).2 (by norm_num)
    · simp at hy
  · intro x hx y hy
    have hx30 : x = 30 := by
      rw [Option.mem_def] at hx
      simp at hx
      exact hx.symm
    subst hx30
    rcases hdl : dlProgressList chunks with _ | ⟨a, t⟩
    · rcases htl with rfl | rfl
      · rw [hdl] at hy
        simp at hy
        rw [← hy]
        norm_num
      · rw [hdl] at hy
        simp at hy
    · rw [hdl] at hy
      simp at hy
      rw [← hy]
      have hamem : a ∈ dlProgressList chunks := by
        rw [hdl]
        exact List.mem_cons_self _ _
      exact (hmem a hamem).1

/-! ### Claim C10 -/

/-- Claim C10: invoking the profile-selection operation before any run has
produced a result record (`results` still `null`) throws (the destructuring
of `null` fails) instead of returning an Assessment, for every profile. -/
theorem insights_before_results_throws (id : UseCase) :
    generateInsights none id = Except.error () ∧
    ∀ a : Assessment, generateInsights none id ≠ Except.ok a := by
  refine ⟨rfl, fun a h => ?_⟩
  exact Except.noConfusion h

/-! ### Claim C4 -/

/-- A previously produced result record, for exhibiting a busy state. -/
def c4rec : SpeedRecord :=
  { ping := 24, download := none, upload := none, jitter := 4,
    server := "s", ip := none, timestamp := TsVal.str "x" }

/-- A state in which a run is still in progress. -/
def busyState : AppState :=
  { testing := true, results := some c4rec, insights := none,
    useCase := none, progress := 50, history := [] }

/-- Claim C4 (amended): a `run()` call is never rejected: there is no busy
check; the entry of `runTest` unconditionally marks testing and clears
results, insights, useCase and progress, whatever the prior state was. -/
theorem second_run_no_busy_resets_state (s : AppState) :
    runTestEntry s =
      { testing := true, results := none, insights := none, useCase := none, progress := 0, history := s.history } :=
  rfl

/-- Counterexample to claim C4 as stated: calling `runTest` in a busy state
(`testing = true`, a result present, progress at 50) does not fail and does
change the state — the first run's results are wiped. -/
theorem second_run_busy_cex :
    busyState.testing = true ∧
    runTestEntry busyState ≠ busyState ∧
    (runTestEntry busyState).results = none ∧
    busyState.results = some c4rec := by
  refine ⟨rfl, ?_, rfl, rfl⟩
  intro h
  have h2 := congrArg AppState.results h
  simp [runTestEntry, busyState] at h2

/-! ### Claim C9 -/

/-- Claim C9 (amended): appending a record and reading `recent(1)` returns a
record whose four metric fields, server label and client address are
preserved exactly, but whose `timestamp` field has been replaced by the
numeric capture epoch (the top-level `timestamp` in
`JSON.stringify({ ...result, timestamp })` overwrites the locale string). -/
theorem history_roundtrip_metrics_preserved (r : SpeedRecord) (nowMs : ℕ) :
    loadHistoryN 1 (saveResult r nowMs []) =
      some [{ ping := r.ping, download := r.download, upload := r.upload,
              jitter := r.jitter, server := r.server, ip := r.ip,
              timestamp := TsVal.num nowMs }] :=
  loadHistoryN_one_saveResult r nowMs

/-- A result record carrying a locale-string timestamp, as built by a
successful run. -/
def c9rec : SpeedRecord :=
  { ping := 22, download := some 100, upload := some 40, jitter := 4,
    server := "ExampleNet", ip := some "203.0.113.7",
    timestamp := TsVal.str "10/11/2026, 12:00:00 PM" }

/-- Counterexample to claim C9 as stated: the record read back from
`recent(1)` is not byte-for-byte the appended one — its human-readable
timestamp string has been replaced by the numeric epoch. -/
theorem history_roundtrip_timestamp_cex :
    loadHistoryN 1 (saveResult c9rec 1760000000000 []) =
      some [{ c9rec with timestamp := TsVal.num 1760000000000 }] ∧
    loadHistoryN 1 (saveResult c9rec 1760000000000 []) ≠ some [c9rec] ∧
    c9rec.timestamp = TsVal.str "10/11/2026, 12:00:00 PM" := by
  refine ⟨loadHistoryN_one_saveResult c9rec 1760000000000, ?_, rfl⟩
  rw [loadHistoryN_one_saveResult]
  intro h
  simp [c9rec] at h

/-! ### Claim C8 -/

/-- A result record with `downloadMbps = 100` (scenario S4). -/
def c8recA : SpeedRecord :=
  { ping := 22, download := some 100, upload := some 40, jitter := 4,
    server := "s", ip := none, timestamp := TsVal.str "t" }

/-- A result record with `pingMs = 50` (scenario S5). -/
def c8recB : SpeedRecord :=
  { ping := 50, download := some 100, upload := some 40, jitter := 4,
    server := "s", ip := none, timestamp := TsVal.str "t" }

/-- Claim C8: the Insight Engine decides status exactly by the documented
thresholds — streaming `Seamless` iff `downloadMbps > 25` with the
floor-based stream count in the description, gaming `Elite` iff
`pingMs < 30`, work `Professional` iff `uploadMbps > 10`; in particular
`downloadMbps = 100` yields `Seamless` mentioning 4 streams, and
`pingMs = 50` yields `Fair`. -/
theorem insight_threshold_table (r : SpeedRecord) (d u : ℚ)
    (hdl : r.download = some d) (hup : r.upload = some u) :
    ((insightFor r UseCase.streaming).status = "Seamless" ↔ 25 < d) ∧
    ((insightFor r UseCase.streaming).status = "Limited" ↔ ¬25 < d) ∧
    (25 < d → (insightFor r UseCase.streaming).desc =
      "Perfect for " ++ toString ⌊d / 25⌋ ++ " concurrent UHD streams.") ∧
    (¬25 < d → (insightFor r UseCase.streaming).desc =
      "Buffer risks on high quality.") ∧
    ((insightFor r UseCase.gaming).status = "Elite" ↔ r.ping < 30) ∧
    ((insightFor r UseCase.gaming).status = "Fair" ↔ ¬r.ping < 30) ∧
    ((insightFor r UseCase.work).status = "Professional" ↔ 10 < u) ∧
    ((insightFor r UseCase.work).status = "Basic" ↔ ¬10 < u) ∧
    (insightFor c8recA UseCase.streaming).status = "Seamless" ∧
    (insightFor c8recA UseCase.streaming).desc =
      "Perfect for 4 concurrent UHD streams." ∧
    (insightFor c8recB UseCase.gaming).status = "Fair" := by
  refine ⟨?_, ?_, ?_, ?_, ?_, ?_, ?_, ?_, ?_, ?_, ?_⟩
  · by_cases h : 25 < d <;> simp [insightFor, jsGt, hdl, h]
  · by_cases h : 25 < d <;> simp [insightFor, jsGt, hdl, h]
  · intro h
    simp [insightFor, jsGt, jsFloorDiv25, hdl, h]
  · intro h
    simp [insightFor, jsGt, hdl, h]
  · by_cases h : r.ping < 30 <;> simp [insightFor, h]
  · by_cases h : r.ping < 30 <;> simp [insightFor, h]
  · by_cases h : 10 < u <;> simp [insightFor, jsGt, hup, h]
  · by_cases h : 10 < u <;> simp [insightFor, jsGt, hup, h]
  · norm_num [insightFor, jsGt, c8recA]
  · norm_num [insightFor, jsGt, jsFloorDiv25, c8recA]
    rfl
  · norm_num [insightFor, c8recB]

/-- Witness for claim C8 at the concrete records of scenarios S4 and S5. -/
theorem insight_threshold_table_witness :
    ((insightFor c8recA UseCase.streaming).status = "Seamless" ↔ (25 : ℚ) < 100) ∧
    ((insightFor c8recA UseCase.streaming).status = "Limited" ↔ ¬(25 : ℚ) < 100) ∧
    ((25 : ℚ) < 100 → (insightFor c8recA UseCase.streaming).desc =
      "Perfect for " ++ toString ⌊(100 : ℚ) / 25⌋ ++ " concurrent UHD streams.") ∧
    (¬(25 : ℚ) < 100 → (insightFor c8recA UseCase.streaming).desc =
      "Buffer risks on high quality.") ∧
    ((insightFor c8recA UseCase.gaming).status = "Elite" ↔ c8recA.ping < 30) ∧
    ((insightFor c8recA UseCase.gaming).status = "Fair" ↔ ¬c8recA.ping < 30) ∧
    ((insightFor c8recA UseCase.work).status = "Professional" ↔ (10 : ℚ) < 40) ∧
    ((insightFor c8recA UseCase.work).status = "Basic" ↔ ¬(10 : ℚ) < 40) ∧
    (insightFor c8recA UseCase.streaming).status = "Seamless" ∧
    (insightFor c8recA UseCase.streaming).desc =
      "Perfect for 4 concurrent UHD streams." ∧
    (insightFor c8recB UseCase.gaming).status = "Fair" :=
  insight_threshold_table c8recA 100 40 rfl rfl

/-! ### Claim C1 -/

/-- A stub in which the server truncates the download: only 10,000,000 of the
requested 25,000,000 octets arrive, over 2.0 s of elapsed time. -/
def c1stub : RunStub :=
  { env := none
    pingAt := fun _ => Except.ok 10
    downloadChunks := [4000000, 6000000]
    downloadEnd := Except.ok 2000
    uploadEnd := Except.ok 1000
    wallNow := 0
    localeStr := "" }

/-- Claim C1 (amended): on every completed download phase the reported
`downloadMbps` is computed from the requested payload size of 25,000,000
octets (the numerator of line 173 is `downloadSize`), whatever response-body
bytes were actually observed; it equals round₁((25000000 × 8) /
elapsedSeconds / 1e6). -/
theorem download_score_uses_requested_size (stub : RunStub) (st0 : Store)
    (d u : ℚ) (hp : (pingPhase stub.pingAt).2.2 = true)
    (hd : stub.downloadEnd = Except.ok d) (hu : stub.uploadEnd = Except.ok u) :
    (runTest stub st0).results.map (fun r => r.download) =
      some (throughputMbps 25000000 (d / 1000)) := by
  rw [runTest_ok stub st0 hp hd hu]
  rfl

/-- Witness for claim C1: the truncated-download stub still scores from the
requested 25,000,000 octets. -/
theorem download_score_uses_requested_size_witness :
    (runTest c1stub []).results.map (fun r => r.download) =
      some (throughputMbps 25000000 ((2000 : ℚ) / 1000)) :=
  download_score_uses_requested_size c1stub [] 2000 1000 rfl rfl rfl

/-- Counterexample to claim C1 as stated: with 10,000,000 observed bytes in
2.0 s the claim's formula gives 40.0 Mbps, but the code reports 100.0 Mbps
(it divides the requested 25,000,000 octets by the elapsed time). -/
theorem download_score_ignores_observed_bytes_cex :
    (runTest c1stub []).results.map (fun r => r.download) = some (some 100) ∧
    c1stub.downloadChunks.sum = 10000000 ∧
    toFixed1 ((10000000 : ℚ) * 8 / ((2000 : ℚ) / 1000) / 1000000) = 40 ∧
    ¬((100 : ℚ) = 40) := by
  refine ⟨?_, rfl, ?_, by norm_num⟩
  · have h := runTest_ok c1stub [] (d := 2000) (u := 1000) rfl rfl rfl
    rw [h]
    norm_num [okRecord, throughputMbps, toFixed1, jsRound]
  · norm_num [toFixed1, jsRound]

/-! ### Claim C2 -/

/-- A stub in which the download stream ends with a measured elapsed time of
exactly 0 ms (below 1 millisecond). -/
def c2stub : RunStub :=
  { env := none
    pingAt := fun _ => Except.ok 10
    downloadChunks := []
    downloadEnd := Except.ok 0
    uploadEnd := Except.ok 1000
    wallNow := 0
    localeStr := "" }

/-- Claim C2 (amended): no clamping of the elapsed time is performed. For any
elapsed `eMs > 0` — including values below 1 ms — the throughput is the
finite value round₁(bytes × 8 / (eMs/1000) / 1e6) computed from the raw
elapsed time; when the elapsed time is exactly 0 the computation does not
yield a finite number (JS `Infinity`). -/
theorem throughput_raw_elapsed (bytes : ℕ) (eMs : ℚ) (he : 0 < eMs) :
    throughputMbps bytes (eMs / 1000) =
      some (toFixed1 ((bytes : ℚ) * 8 / (eMs / 1000) / 1000000)) ∧
    (throughputMbps bytes (eMs / 1000)).isSome = true ∧
    throughputMbps bytes 0 = none := by
  have hne : eMs / 1000 ≠ 0 := by positivity
  refine ⟨?_, ?_, ?_⟩
  · rw [throughputMbps, if_neg hne]
  · rw [throughputMbps, if_neg hne]
    rfl
  · rw [throughputMbps, if_pos rfl]

/-- Witness for claim C2 at an elapsed time of 0.5 ms (below 1 ms): the
value is finite but computed from the raw 0.5 ms, not from a clamped 1 ms. -/
theorem throughput_raw_elapsed_witness :
    throughputMbps 25000000 ((1 / 2 : ℚ) / 1000) =
      some (toFixed1 ((25000000 : ℚ) * 8 / ((1 / 2 : ℚ) / 1000) / 1000000)) ∧
    (throughputMbps 25000000 ((1 / 2 : ℚ) / 1000)).isSome = true ∧
    throughputMbps 25000000 0 = none :=
  throughput_raw_elapsed 25000000 (1 / 2) (by norm_num)

/-- Counterexample to claim C2 as stated: a download phase whose elapsed
time is 0 ms (below 1 millisecond) reports a non-finite `downloadMbps`
(JS `Infinity`, modelled by `none`) — nothing was clamped. -/
theorem throughput_zero_elapsed_infinite_cex :
    (runTest c2stub []).results.map (fun r => r.download) = some none := by
  have h := runTest_ok c2stub [] (d := 0) (u := 1000) rfl rfl rfl
  rw [h]
  norm_num [okRecord, throughputMbps]

/-! ### Claim C3 -/

/-- A stub whose Phase-2 download throws a `NetworkError`. -/
def c3stub : RunStub :=
  { env := none
    pingAt := fun _ => Except.ok 10
    downloadChunks := []
    downloadEnd := Except.error ()
    uploadEnd := Except.ok 1000
    wallNow := 7
    localeStr := "loc" }

/-- Claim C3 (amended): a `NetworkError` in Phase 1, 2 or 3 produces exactly
the fallback tuple (ping 24, download 82.4, upload 31.2, jitter 4, server
"Regional Cache"), persists it to History — with its `timestamp` replaced by
the numeric capture epoch — so that a subsequent `recent(1)` returns it; but
the `finished` phase is never reported. -/
theorem degraded_path_persists_without_finished (stub : RunStub)
    (h : (pingPhase stub.pingAt).2.2 = false ∨
      stub.downloadEnd = Except.error () ∨ stub.uploadEnd = Except.error ()) :
    (runTest stub []).results = some (fallbackRecord stub.localeStr) ∧
    loadHistoryN 1 (runTest stub []).store =
      some [{ fallbackRecord stub.localeStr with
        timestamp := TsVal.num stub.wallNow }] ∧
    "finished" ∉ (runTest stub []).phaseTrace := by
  obtain ⟨hres, hstore, hfin⟩ := runTest_err stub [] h
  refine ⟨hres, ?_, hfin⟩
  rw [hstore, loadHistoryN_one_saveResult]

/-- Witness for claim C3 at the Phase-2-failure stub. -/
theorem degraded_path_persists_without_finished_witness :
    (runTest c3stub []).results = some (fallbackRecord "loc") ∧
    loadHistoryN 1 (runTest c3stub []).store =
      some [{ fallbackRecord "loc" with timestamp := TsVal.num 7 }] ∧
    "finished" ∉ (runTest c3stub []).phaseTrace :=
  degraded_path_persists_without_finished c3stub (Or.inr (Or.inl rfl))

/-- Counterexample to claim C3 as stated: after a Phase-2 `NetworkError` the
fallback record is produced and persisted, but the pipeline does not report
the `finished` phase — the phase label stays at `download` and the progress
value stays at 30, not 100. -/
theorem degraded_path_not_finished_cex :
    (runTest c3stub []).results = some (fallbackRecord "loc") ∧
    (runTest c3stub []).phaseTrace = ["ping", "download"] ∧
    "finished" ∉ (runTest c3stub []).phaseTrace ∧
    (runTest c3stub []).progressTrace.getLastD 0 = 30 ∧
    ¬((30 : ℚ) = 100) := by
  have hrun : runTest c3stub [] =
      { progressTrace := [0, 6, 12, 18, 24, 30]
        phaseTrace := ["ping", "download"]
        results := some (fallbackRecord "loc")
        store := saveResult (fallbackRecord "loc") 7 [] } := by
    rw [runTest]
    norm_num [c3stub, pingPhase, pingPhaseAux, dlProgressList, runningTotals]
  rw [hrun]
  refine ⟨rfl, rfl, by decide, rfl, by norm_num⟩

/-! ### Claim C5 -/

/-- A simple well-formed stored record. -/
def c5rec : SpeedRecord :=
  { ping := 1, download := none, upload := none, jitter := 2,
    server := "s", ip := none, timestamp := TsVal.str "t" }

/-- Claim C5 (amended): `recent(n)` examines the first `n` keys in
descending lexicographic order; when no stored entry is corrupt it returns
at most `n` records; a listed key whose entry is missing yields `null` and
is silently filtered out (shown on a concrete key list with an absent key);
but a corrupt entry makes the whole call fail rather than being skipped. -/
theorem recent_corrupt_fails_missing_skipped (n : ℕ) (st : Store)
    (hvalid : ∀ kv ∈ st, kv.2 ≠ Blob.corrupt) :
    (∃ l, loadHistoryN n st = some l ∧ l.length ≤ n) ∧
    List.Sorted (fun a b : String => b ≤ a)
      ((List.insertionSort (· ≤ ·) (storeList st "speedtest:")).reverse.take n) ∧
    loadHistoryKeys 5 ["speedtest:9", "speedtest:2"]
      [("speedtest:2", Blob.valid c5rec)] = some [c5rec] := by
  refine ⟨?_, ?_, ?_⟩
  · have hsome : ∀ key ∈
        (List.insertionSort (· ≤ ·) (storeList st "speedtest:")).reverse.take n,
        ((fun key => match storeGet st key with
          | none => some none
          | some b => (jsonParse b).map some) key).isSome = true := by
      intro key _
      rcases hget : storeGet st key with _ | b
      · simp [hget]
      · rcases hfind : st.find? (fun kv => kv.1 = key) with _ | kv
        · rw [storeGet, hfind] at hget
          simp at hget
        · have hkv : kv ∈ st := List.mem_of_find?_eq_some hfind
          have hb : kv.2 = b := by
            rw [storeGet, hfind] at hget
            simpa using hget
          have hnc := hvalid kv hkv
          rw [hb] at hnc
          cases b with
          | valid r => simp [hget, jsonParse]
          | corrupt => exact absurd rfl hnc
    obtain ⟨bs, hbs, hlen⟩ := mapM_option_of_isSome
      (fun key => match storeGet st key with
        | none => some none
        | some b => (jsonParse b).map some)
      ((List.insertionSort (· ≤ ·) (storeList st "speedtest:")).reverse.take n)
      hsome
    refine ⟨bs.filterMap id, ?_, ?_⟩
    · simp only [loadHistoryN, loadHistoryKeys]
      rw [hbs]
      rfl
    · calc (bs.filterMap id).length
          ≤ bs.length := List.length_filterMap_le _ _
        _ = _ := hlen
        _ ≤ n := List.length_take_le _ _
  · have hs := List.sorted_insertionSort (α := String) (· ≤ ·)
      (storeList st "speedtest:")
    have hrev : List.Sorted (fun a b : String => b ≤ a)
        (List.insertionSort (· ≤ ·) (storeList st "speedtest:")).reverse :=
      List.pairwise_reverse.mpr hs
    exact List.Pairwise.sublist (List.take_sublist n _) hrev
  · simp +decide [loadHistoryKeys, storeGet, jsonParse, List.insertionSort,
      List.orderedInsert, List.mapM, List.mapM.loop, List.find?]

/-- Witness for claim C5 on a one-entry store with no corrupt values. -/
theorem recent_corrupt_fails_missing_skipped_witness :
    (∃ l, loadHistoryN 5 [("speedtest:3", Blob.valid c5rec)] = some l ∧
      l.length ≤ 5) ∧
    List.Sorted (fun a b : String => b ≤ a)
      ((List.insertionSort (· ≤ ·)
        (storeList [("speedtest:3", Blob.valid c5rec)] "speedtest:")).reverse.take 5) ∧
    loadHistoryKeys 5 ["speedtest:9", "speedtest:2"]
      [("speedtest:2", Blob.valid c5rec)] = some [c5rec] :=
  recent_corrupt_fails_missing_skipped 5 [("speedtest:3", Blob.valid c5rec)]
    (by decide)

/-- Counterexample to claim C5 as stated: a store holding one corrupt entry
and one newer well-formed entry makes `loadHistory` fail outright (`none`);
the well-formed record is dropped instead of the corrupt one being skipped. -/
theorem recent_corrupt_entry_cex :
    loadHistory [("speedtest:1", Blob.corrupt),
      ("speedtest:2", Blob.valid c5rec)] = none ∧
    storeGet [("speedtest:1", Blob.corrupt), ("speedtest:2", Blob.valid c5rec)]
      "speedtest:2" = some (Blob.valid c5rec) := by
  constructor
  · simp +decide [loadHistory, loadHistoryN, loadHistoryKeys, storeList,
      storeGet, jsonParse, strStartsWith, List.insertionSort,
      List.orderedInsert, List.mapM, List.mapM.loop, List.find?]
  · decide

/-! ### Claim C6 -/

/-- A stub in which the server over-delivers: a single 30,000,000-byte chunk
arrives although 25,000,000 octets were requested. -/
def c6stub : RunStub :=
  { env := none
    pingAt := fun _ => Except.ok 10
    downloadChunks := [30000000]
    downloadEnd := Except.ok 2000
    uploadEnd := Except.ok 1000
    wallNow := 0
    localeStr := "" }

/-- A stub whose download stays within the requested size. -/
def c6okStub : RunStub :=
  { env := none
    pingAt := fun _ => Except.ok 10
    downloadChunks := [20000000]
    downloadEnd := Except.ok 2000
    uploadEnd := Except.ok 1000
    wallNow := 0
    localeStr := "" }

/-- Claim C6 (amended): provided the observed download bytes never exceed the
requested 25,000,000 octets, the progress trace of a run is monotonically
non-decreasing; the download-phase progress value `30 + 40 × (received /
requestedSize)` is applied with no clamping, but whenever
`received ≤ requestedSize` it already lies in `[30, 70]` and so equals its
clamp; and whenever the `finished` phase is reported the final progress value
is exactly 100. -/
theorem progress_monotone_unclamped (stub : RunStub) (st0 : Store)
    (hsum : stub.downloadChunks.sum ≤ 25000000) :
    List.Chain' (· ≤ ·) (runTest stub st0).progressTrace ∧
    (∀ rcv : ℕ, rcv ≤ 25000000 →
      max 30 (min (dlProgressVal rcv) 70) = dlProgressVal rcv) ∧
    ("finished" ∈ (runTest stub st0).phaseTrace →
      (runTest stub st0).progressTrace.getLastD 0 = 100) := by
  refine ⟨?_, ?_, ?_⟩
  · by_cases hp : (pingPhase stub.pingAt).2.2 = false
    · rw [runTest]
      simp only [hp, if_pos rfl, if_true]
      exact chain'_pingPhaseAux stub.pingAt 5 0 0
    · have hp' : (pingPhase stub.pingAt).2.2 = true := by
        cases hb : (pingPhase stub.pingAt).2.2
        · exact absurd hb hp
        · rfl
      obtain ⟨t0, t1, t2, t3, t4, h0, h1, h2, h3, h4, hsamp, hprog⟩ :=
        pingPhase_ok hp'
      rcases hde : stub.downloadEnd with e | dms
      · rw [runTest]
        simp only [hp', hde, Bool.true_eq_false, if_false]
        rw [hprog]
        simpa using chain'_trace_append hsum [] (Or.inr rfl)
      · rcases hue : stub.uploadEnd with e | ums
        · rw [runTest]
          simp only [hp', hde, hue, Bool.true_eq_false, if_false]
          rw [hprog]
          simpa using chain'_trace_append hsum [] (Or.inr rfl)
        · rw [runTest_ok stub st0 hp' hde hue]
          rw [hprog]
          simpa using chain'_trace_append hsum [100] (Or.inl rfl)
  · intro rcv hrcv
    rw [min_eq_left (dlProgressVal_le rcv hrcv),
      max_eq_right (le_dlProgressVal rcv)]
  · intro hfin
    by_cases hp : (pingPhase stub.pingAt).2.2 = false
    · exact absurd hfin (runTest_err stub st0 (Or.inl hp)).2.2
    · have hp' : (pingPhase stub.pingAt).2.2 = true := by
        cases hb : (pingPhase stub.pingAt).2.2
        · exact absurd hb hp
        · rfl
      rcases hde : stub.downloadEnd with e | dms
      · obtain ⟨⟩ := e
        exact absurd hfin (runTest_err stub st0 (Or.inr (Or.inl hde))).2.2
      · rcases hue : stub.uploadEnd with e | ums
        · obtain ⟨⟩ := e
          exact absurd hfin
            (runTest_err stub st0 (Or.inr (Or.inr hue))).2.2
        · rw [runTest_ok stub st0 hp' hde hue]
          rw [← List.append_assoc, List.getLastD_concat]

/-- Witness for claim C6 at a stub that downloads 20,000,000 of the
requested 25,000,000 octets. -/
theorem progress_monotone_unclamped_witness :
    List.Chain' (· ≤ ·) (runTest c6okStub []).progressTrace ∧
    (∀ rcv : ℕ, rcv ≤ 25000000 →
      max 30 (min (dlProgressVal rcv) 70) = dlProgressVal rcv) ∧
    ("finished" ∈ (runTest c6okStub []).phaseTrace →
      (runTest c6okStub []).progressTrace.getLastD 0 = 100) :=
  progress_monotone_unclamped c6okStub [] (by decide)

/-- Counterexample to claim C6 as stated: when the server delivers
30,000,000 bytes the progress value set during the download phase is 78,
outside the claimed clamp interval `[30, 70]` — no clamping happens. -/
theorem download_progress_exceeds_band_cex :
    (runTest c6stub []).progressTrace = [0, 6, 12, 18, 24, 30, 78, 100] ∧
    dlProgressVal 30000000 = 78 ∧
    max 30 (min (dlProgressVal 30000000) 70) = 70 ∧
    ¬((78 : ℚ) = 70) := by
  refine ⟨?_, ?_, ?_, by norm_num⟩
  · have h := runTest_ok c6stub [] (d := 2000) (u := 1000) rfl rfl rfl
    rw [h]
    norm_num [pingPhase, pingPhaseAux, c6stub, dlProgressList, runningTotals,
      dlProgressVal]
  · norm_num [dlProgressVal]
  · norm_num [dlProgressVal]

/-! ### Claim C7 -/

/-- The Phase-1 stub of the spec's boundary case: elapsed times
`[10, 12, 11, 13, 14]` milliseconds. -/
def c7stub : RunStub :=
  { env := none
    pingAt := fun i => Except.ok (([10, 12, 11, 13, 14] : List ℚ).getD i 0)
    downloadChunks := [25000000]
    downloadEnd := Except.ok 2000
    uploadEnd := Except.ok 1000
    wallNow := 0
    localeStr := "" }

/-- Claim C7: Phase 1 performs exactly 5 sequential probes; `pingMs` is
`Math.round` of the sample mean and `jitterMs` is `Math.round` of
max − min over the same samples (the code's sorted-array last-minus-first
equals max − min), both with the same round-half-up rule `jsRound`; for
samples `[10, 12, 11, 13, 14]` the results are `pingMs = 12` and
`jitterMs = 4`. -/
theorem ping_jitter_round_mean_range (stub : RunStub) (st0 : Store)
    (d u : ℚ) (hp : (pingPhase stub.pingAt).2.2 = true)
    (hd : stub.downloadEnd = Except.ok d) (hu : stub.uploadEnd = Except.ok u) :
    (pingPhase stub.pingAt).1.length = 5 ∧
    (runTest stub st0).results.map (fun r => r.ping) =
      some (jsRound ((pingPhase stub.pingAt).1.sum / 5)) ∧
    (runTest stub st0).results.map (fun r => r.jitter) =
      some (jsRound (listMax (pingPhase stub.pingAt).1 -
        listMin (pingPhase stub.pingAt).1)) ∧
    (runTest c7stub []).results.map (fun r => (r.ping, r.jitter)) =
      some (12, 4) := by
  obtain ⟨t0, t1, t2, t3, t4, h0, h1, h2, h3, h4, hsamp, hprog⟩ :=
    pingPhase_ok hp
  have hlen : (pingPhase stub.pingAt).1.length = 5 := by
    rw [hsamp]
    rfl
  have hne : (pingPhase stub.pingAt).1 ≠ [] := by
    rw [hsamp]
    simp
  refine ⟨hlen, ?_, ?_, ?_⟩
  · rw [runTest_ok stub st0 hp hd hu]
    simp [okRecord, hlen]
  · rw [runTest_ok stub st0 hp hd hu]
    simp only [Option.map_some', okRecord]
    rw [sortedAsc_getLastD hne, sortedAsc_headD hne]
  · have h := runTest_ok c7stub [] (d := 2000) (u := 1000) rfl rfl rfl
    rw [h]
    norm_num [okRecord, pingPhase, pingPhaseAux, c7stub, sortedAsc,
      List.insertionSort, List.orderedInsert, jsRound]

/-- Witness for claim C7 at the `[10, 12, 11, 13, 14]` stub. -/
theorem ping_jitter_round_mean_range_witness :
    (pingPhase c7stub.pingAt).1.length = 5 ∧
    (runTest c7stub []).results.map (fun r => r.ping) =
      some (jsRound ((pingPhase c7stub.pingAt).1.sum / 5)) ∧
    (runTest c7stub []).results.map (fun r => r.jitter) =
      some (jsRound (listMax (pingPhase c7stub.pingAt).1 -
        listMin (pingPhase c7stub.pingAt).1)) ∧
    (runTest c7stub []).results.map (fun r => (r.ping, r.jitter)) =
      some (12, 4) :=
  ping_jitter_round_mean_range c7stub [] 2000 1000 rfl rfl rfl
